import Mathlib

/-!
Verification of the TranscribeAI pipeline orchestration core.

The Python sources are shallowly embedded here:
- `src/PreprocessPostprocess/preprocess_to_jpeg.py` (preprocess stage runner)
- `src/GeminiImageTranscription/flash_process_local_dir.py` (transcription stage runner)
- `src/transcribe_document_main.py` (pipeline orchestrator)

A ledger ("tracking file" / "pending file") is modelled as the list of raw
lines returned by Python `readlines()`: each element is one line of the file,
normally including its trailing newline character.
-/

set_option autoImplicit false

namespace TranscribeAI

/-- Python whitespace characters recognised by `str.strip()` (ASCII subset,
which is all that occurs in ledger files: space, tab, LF, CR, VT, FF). -/
def isPySpace (c : Char) : Bool :=
  c == ' ' || c == '\t' || c == '\n' || c == '\r' || c == Char.ofNat 11 || c == Char.ofNat 12

/-- Remove a maximal run of trailing whitespace characters. -/
def stripTrailingList : List Char → List Char
  | [] => []
  | c :: rest =>
    let r := stripTrailingList rest
    if r.isEmpty && isPySpace c then [] else c :: r

/-- Model of Python `str.strip()` (for ASCII whitespace): remove leading and
trailing whitespace. -/
def pystrip (s : String) : String :=
  ⟨stripTrailingList (s.data.dropWhile isPySpace)⟩

/-- Model of Python `str.lower()` on the ASCII strings that occur here. -/
def pylower (s : String) : String :=
  ⟨s.data.map Char.toLower⟩

/-- Model of Python `str.endswith(t)`. -/
def pyEndsWith (s t : String) : Bool :=
  t.data.isSuffixOf s.data

/-- Model of Python `line.startswith("#")`: the first character is `#`. -/
def startsWithHash (s : String) : Bool :=
  match s.data with
  | [] => false
  | c :: _ => c == '#'

/-- Index of the last occurrence of `c` in `cs`, if any (Python `str.rfind`). -/
def lastIdxOf (c : Char) (cs : List Char) : Option Nat :=
  ((List.range cs.length).filter (fun i => cs.get? i == some c)).getLast?

/-- Position of the extension dot chosen by Python `os.path.splitext` (posix):
the last `.` that lies after the last `/` and after at least one non-dot
character of the basename; `none` when the path has no extension. -/
def splitextIdx (p : List Char) : Option Nat :=
  match lastIdxOf '.' p with
  | none => none
  | some d =>
    let s := match lastIdxOf '/' p with
      | none => 0
      | some i => i + 1
    if s ≤ d then
      if (List.range (d - s)).all (fun k => p.get? (s + k) == some '.') then none
      else some d
    else none

/-- Extension part of Python `os.path.splitext(p)[1]`. -/
def splitextExt (p : String) : String :=
  match splitextIdx p.data with
  | none => ""
  | some d => ⟨p.data.drop d⟩

/-- Root part of Python `os.path.splitext(p)[0]`. -/
def splitextRoot (p : String) : String :=
  match splitextIdx p.data with
  | none => p
  | some d => ⟨p.data.take d⟩

/-! ## Work-item ledger operations -/

/-- Valid image extensions, `preprocess_to_jpeg.py:14` (`VALID_EXTS`). The same
tuple appears at `transcribe_document_main.py:57` (`valid_exts`). -/
def VALID_EXTS : List String := [".tif", ".tiff", ".png", ".jpg", ".jpeg"]

/-- Test `os.path.splitext(p)[1].lower() in VALID_EXTS`
(`preprocess_to_jpeg.py:79`). -/
def hasValidExt (p : String) : Bool :=
  VALID_EXTS.contains (pylower (splitextExt p))

/-- Ledger line removal, `preprocess_to_jpeg.py:52-64` (`update_tracking_file`).
The transcription runner performs the identical read-all/filter/write-all
rewrite inline at `flash_process_local_dir.py:144-149` and `186-191`: every
line whose stripped content equals the item is dropped, all other raw lines
are written back unchanged and in order. -/
def update_tracking_file (lines : List String) (item : String) : List String :=
  lines.filter (fun line => pystrip line != item)

/-- Ledger load of the preprocess stage, `preprocess_to_jpeg.py:76-77`:
`[line.strip() for line in f if line.strip() and not line.startswith("#")]`. -/
def preprocessLoad (lines : List String) : List String :=
  (lines.filter (fun line => pystrip line != "" && !startsWithHash line)).map pystrip

/-- Ledger load of the transcription stage, `flash_process_local_dir.py:68-69`:
`[line.strip() for line in f if line.strip()]` (note: no comment filter). -/
def flashLoad (lines : List String) : List String :=
  (lines.filter (fun line => pystrip line != "")).map pystrip

/-- Content of a raw ledger line: the line without its trailing newline
character. A line of the file "is exactly equal to" an item when its content
equals the item. -/
def lineContent (l : String) : String :=
  if l.data.getLast? == some '\n' then ⟨l.data.dropLast⟩ else l

/-- Removal described by the spec (§4.1 `removeItem`): exclude every line
whose content (the line without its trailing newline) is exactly the item,
keeping all other lines. -/
def specRemoveItem (lines : List String) (item : String) : List String :=
  lines.filter (fun line => lineContent line != item)

/-! ## Context resolver (`flash_process_local_dir.py:80-132`) -/

/-- Filenames of the context folder selected as individual context files,
`flash_process_local_dir.py:91-94`: lowercased name ends in `_context.txt`
and is not the global file `all_document_context.txt` (case-insensitively). -/
def individual_context_files (listing : List String) : List String :=
  listing.filter (fun f =>
    pyEndsWith (pylower f) "_context.txt" && pylower f != "all_document_context.txt")

/-- Model of Python `str.replace(pat, rep)` on character lists: scan left to
right replacing each non-overlapping occurrence of `pat` by `rep`. The fuel
argument starts at the length of the scanned list and never runs out. -/
def replaceGo (pat rep : List Char) : Nat → List Char → List Char
  | 0, cs => cs
  | fuel + 1, cs =>
    match cs with
    | [] => []
    | c :: rest =>
      if 0 < pat.length && cs.take pat.length == pat then
        rep ++ replaceGo pat rep fuel (cs.drop pat.length)
      else
        c :: replaceGo pat rep fuel rest

/-- Model of Python `str.replace(pat, rep)`. -/
def pyreplace (s pat rep : String) : String :=
  ⟨replaceGo pat.data rep.data s.data.length s.data⟩

/-- Key under which a context file is stored, `flash_process_local_dir.py:97`:
`os.path.splitext(cf)[0].replace("_context", "")`. -/
def contextKey (cf : String) : String :=
  pyreplace (splitextRoot cf) "_context" ""

/-- The `context_mapping` dict built at `flash_process_local_dir.py:91-100`
from a directory listing and the file contents. Entries are consed in front,
so `List.lookup` sees the most recently inserted binding for a key, matching
Python dict overwrite semantics. -/
def context_mapping_of (listing : List String) (content : String → String) :
    List (String × String) :=
  (individual_context_files listing).foldl
    (fun m cf => (contextKey cf, pystrip (content cf)) :: m) []

/-- The fixed base prompt, `flash_process_local_dir.py:123-129`. -/
def base_prompt : String :=
  "Please transcribe the text from the uploaded image. Ensure that the transcription follows correct English spelling, grammar, and sentence structure. If a word is completely missing, mark it as [blank]. If a word is unclear or unreadable, make an educated guess based on context rather than providing gibberish, and mark it as [unsure]."

/-- Prompt composition, `flash_process_local_dir.py:108-132` (`compose_prompt`).
The module globals `global_context` and `context_mapping` and the literal base
prompt of the source are explicit parameters here. -/
def compose_prompt (global_context : String) (context_mapping : List (String × String))
    (image_basename : String) (basePrompt : String) : String :=
  let context_text := if global_context != "" then global_context else ""
  let context_text :=
    match context_mapping.lookup image_basename with
    | some ind => if context_text != "" then context_text ++ "\n" ++ ind else ind
    | none => context_text
  if context_text != "" then "Given the context: " ++ context_text ++ "\n" ++ basePrompt
  else basePrompt

/-! ## Retrying invoker (`flash_process_local_dir.py:159-184`) -/

/-- Retry configuration, `flash_process_local_dir.py:26-27`. -/
def MAX_RETRIES : Nat := 3

/-- Initial backoff delay in seconds, `flash_process_local_dir.py:27`. -/
def RETRY_DELAY : Nat := 5

/-- What one attempt of the `try` block (`flash_process_local_dir.py:161-174`)
can do: `except` is any exception raised before the artifact check (image open
failure, API failure, empty response, write failure); `wrote present size`
means the streamed response was written out and the output artifact then
exists (`present`) with the given byte size. -/
inductive AttemptOutcome where
  | except
  | wrote (present : Bool) (size : Nat)

/-- The success test of one attempt, `flash_process_local_dir.py:169`:
`os.path.exists(output_path) and os.path.getsize(output_path) > 0`; an
exception never reaches that test. -/
def attemptSucceeds : AttemptOutcome → Bool
  | AttemptOutcome.except => false
  | AttemptOutcome.wrote present size => present && size > 0

/-- The retry loop `for attempt in range(MAX_RETRIES)`
(`flash_process_local_dir.py:160-184`), drained from attempt index `attempt`
with `remaining` loop iterations left. Returns whether the item succeeded and
the list of backoff sleeps performed (`time.sleep(wait_time)` at line 180,
taken only when `attempt < MAX_RETRIES - 1`). -/
def retryLoopGo (outcome : Nat → AttemptOutcome) (retryDelay : Nat) :
    Nat → Nat → Bool × List Nat
  | _, 0 => (false, [])
  | attempt, remaining + 1 =>
    if attemptSucceeds (outcome attempt) then (true, [])
    else if remaining == 0 then (false, [])
    else
      let r := retryLoopGo outcome retryDelay (attempt + 1) remaining
      (r.1, retryDelay * 3 ^ attempt :: r.2)

/-- One full run of the retry loop for one item. -/
def retryLoop (outcome : Nat → AttemptOutcome) (maxRetries retryDelay : Nat) :
    Bool × List Nat :=
  retryLoopGo outcome retryDelay 0 maxRetries

/-! ## Transcription stage runner (`flash_process_local_dir.py:139-192`) -/

/-- Environment one work item meets: whether its source file exists
(`os.path.exists(image_path)`, line 141) and the outcome of each attempt. -/
structure ItemEnv where
  fileExists : Bool
  outcome : Nat → AttemptOutcome

/-- Processing of one work item, `flash_process_local_dir.py:140-192`:
a missing source file is removed from the pending file at once (lines
141-151) without entering the retry loop; otherwise the retry loop runs once
and the item is removed only when it reports success (lines 185-191).
Returns the new ledger lines, the number of retry-loop invocations (0 or 1),
and the backoff sleeps performed. -/
def processItem (env : ItemEnv) (item : String) (ledger : List String) :
    List String × Nat × List Nat :=
  if env.fileExists then
    let r := retryLoop env.outcome MAX_RETRIES RETRY_DELAY
    (if r.1 then update_tracking_file ledger item else ledger, 1, r.2)
  else
    (update_tracking_file ledger item, 0, [])

/-- One full drain of the transcription stage, `flash_process_local_dir.py:
67-75` and `139-192`: the pending file is loaded, the items are processed in
reverse order (`REVERSE_ORDER = True`, line 25 and 75), and each item mutates
the pending file as in `processItem`. Returns the final ledger lines and the
total number of retry-loop invocations. -/
def flashStage (envOf : String → ItemEnv) (lines : List String) : List String × Nat :=
  ((flashLoad lines).reverse).foldl
    (fun acc item =>
      let r := processItem (envOf item) item acc.1
      (r.1, acc.2 + r.2.1))
    (lines, 0)

/-! ## Preprocess stage runner (`preprocess_to_jpeg.py:66-93`) -/

/-- One iteration of the drain loop, `preprocess_to_jpeg.py:85-92`: the
Boolean result of `preprocess_image_for_ocr` (line 90) is not inspected by
the caller; `update_tracking_file` runs unconditionally at line 91. -/
def process_images_step (preprocessSucceeded : Bool) (ledger : List String)
    (image_path : String) : List String :=
  update_tracking_file ledger image_path

/-- One full drain of the preprocess stage, `preprocess_to_jpeg.py:76-93`:
load the tracking file, keep only paths with a valid image extension
(line 79), and run `process_images_step` on each, where `preprocessResult`
gives the Boolean returned by `preprocess_image_for_ocr` for each path. -/
def process_images_drain (preprocessResult : String → Bool) (ledger : List String) :
    List String :=
  ((preprocessLoad ledger).filter hasValidExt).foldl
    (fun led p => process_images_step (preprocessResult p) led p) ledger

/-! ## Pipeline orchestrator (`transcribe_document_main.py`) -/

/-- The first meaningful line of a ledger, `transcribe_document_main.py:62-69`:
scan the lines in order, strip each, and return the first that is non-blank
and does not start with `#`. -/
def firstMeaningful (lines : List String) : Option String :=
  (lines.map pystrip).find? (fun s => s != "" && !startsWithHash s)

/-- The repopulation decision for the preprocess tracking file,
`transcribe_document_main.py:58-69`: `repopulate` starts `True` and becomes
`False` exactly when the file exists and its first meaningful line is the
sentinel `$$done$$`. -/
def shouldRepopulate (fileExists : Bool) (lines : List String) : Bool :=
  if fileExists then
    match firstMeaningful lines with
    | some s => !(s == "$$done$$")
    | none => true
  else true

/-- Content written on repopulation, `transcribe_document_main.py:77-80`: one
line per discovered image path, then the sentinel line, overwriting the file. -/
def repopulateContent (image_paths : List String) : List String :=
  image_paths.map (fun p => p ++ "\n") ++ ["$$done$$\n"]

/-- The regeneration decision for the Gemini pending file,
`transcribe_document_main.py:125`: it is rewritten iff `--new` was given or
the file does not exist; the sentinel state of the file is never consulted. -/
def shouldWritePending (newFlag : Bool) (pendingExists : Bool) : Bool :=
  newFlag || !pendingExists

/-- Content written to the Gemini pending file,
`transcribe_document_main.py:126-128`: one line per processed image path and
no sentinel line. -/
def pendingContent (processed_images : List String) : List String :=
  processed_images.map (fun p => p ++ "\n")

/-- Discovery of processed images for the transcription stage,
`transcribe_document_main.py:113-117`: the files of the output directory
whose lowercased name ends in `.jpeg`. -/
def gatherProcessed (listing : List String) : List String :=
  listing.filter (fun f => pyEndsWith (pylower f) ".jpeg")

/-! ## Helper lemmas -/

/-- Folding successive filters over a list equals one filter by the
conjunction of all predicates. -/
theorem foldl_filter_eq {α β : Type} (p : β → α → Bool) :
    ∀ (items : List β) (acc : List α),
      items.foldl (fun led i => led.filter (p i)) acc
        = acc.filter (fun l => items.all (fun i => p i l)) := by
  intro items
  induction items with
  | nil => intro acc; simp
  | cons i is ih =>
    intro acc
    simp only [List.foldl_cons]
    rw [ih, List.filter_filter]
    exact List.filter_congr (fun a _ => by simp [List.all_cons, Bool.and_comm])

/-- A preprocess drain is the single filter dropping every line whose stripped
content is one of the valid-extension items loaded from the ledger. -/
theorem process_images_drain_eq_filter (results : String → Bool) (ledger : List String) :
    process_images_drain results ledger
      = ledger.filter (fun l =>
          ((preprocessLoad ledger).filter hasValidExt).all (fun p => pystrip l != p)) :=
  foldl_filter_eq (fun (p : String) (l : String) => pystrip l != p)
    ((preprocessLoad ledger).filter hasValidExt) ledger

/-- An appended string is empty only if both parts are. -/
theorem append_ne_empty_left (a b : String) (h : a ≠ "") : a ++ b ≠ "" := by
  intro hc
  have h2 : a.data ++ b.data = [] := by
    have h3 := congrArg String.data hc
    simpa [String.data_append] using h3
  exact h (String.ext (List.append_eq_nil.mp h2).1)

/-- Appending the newline character is injective. -/
theorem append_newline_inj (a b : String) (h : a ++ "\n" = b ++ "\n") : a = b := by
  have h1 : a.data ++ "\n".data = b.data ++ "\n".data := by
    have h2 := congrArg String.data h
    simpa [String.data_append] using h2
  exact String.ext (List.append_cancel_right h1)

/-- A line whose first character is `#` still starts with `#` after stripping. -/
theorem startsWithHash_pystrip (l : String) (h : startsWithHash l = true) :
    startsWithHash (pystrip l) = true := by
  rcases l with ⟨data⟩
  cases data with
  | nil => simp [startsWithHash] at h
  | cons c rest =>
    have hc : c = '#' := by simpa [startsWithHash] using h
    subst hc
    have hsp : isPySpace '#' = false := rfl
    show startsWithHash ⟨stripTrailingList (List.dropWhile isPySpace ('#' :: rest))⟩ = true
    rw [List.dropWhile_cons]
    rw [hsp]
    simp only [Bool.false_eq_true, if_false]
    rw [stripTrailingList]
    rw [hsp]
    simp [startsWithHash]

/-- A failed attempt with further attempts remaining sleeps `d * 3 ^ a`
seconds and continues at the next attempt index. -/
theorem retryLoopGo_fail_step (o : Nat → AttemptOutcome) (d a f : Nat)
    (hs : attemptSucceeds (o a) = false) (hf : f ≠ 0) :
    retryLoopGo o d a (f + 1)
      = ((retryLoopGo o d (a + 1) f).1, d * 3 ^ a :: (retryLoopGo o d (a + 1) f).2) := by
  simp [retryLoopGo, hs, hf]

/-- A successful attempt stops the retry loop at once with no further sleep. -/
theorem retryLoopGo_success_step (o : Nat → AttemptOutcome) (d a f : Nat)
    (hs : attemptSucceeds (o a) = true) :
    retryLoopGo o d a (f + 1) = (true, []) := by
  simp [retryLoopGo, hs]

/-- A failure on the final attempt ends the loop without sleeping. -/
theorem retryLoopGo_last_fail (o : Nat → AttemptOutcome) (d a : Nat)
    (hs : attemptSucceeds (o a) = false) :
    retryLoopGo o d a 1 = (false, []) := by
  simp [retryLoopGo, hs]

/-- The backoff sleeps performed by the retry loop are at most one fewer than
the remaining attempts. -/
theorem retryLoopGo_sleeps_length (o : Nat → AttemptOutcome) (d : Nat) :
    ∀ (fuel a : Nat), ((retryLoopGo o d a fuel).2).length ≤ fuel - 1 := by
  intro fuel
  induction fuel with
  | zero => intro a; simp [retryLoopGo]
  | succ f ih =>
    intro a
    by_cases hs : attemptSucceeds (o a) = true
    · simp [retryLoopGo_success_step o d a f hs]
    · rcases Nat.eq_zero_or_pos f with hf | hf
      · subst hf
        simp [retryLoopGo_last_fail o d a (Bool.not_eq_true _ ▸ hs)]
      · have hrec := ih (a + 1)
        rw [retryLoopGo_fail_step o d a f (Bool.not_eq_true _ ▸ hs) (Nat.pos_iff_ne_zero.mp hf)]
        simp only [List.length_cons]
        omega

/-- The backoff sleep at position `n` of the retry loop started at attempt
index `a` is `d * 3 ^ (a + n)` seconds. -/
theorem retryLoopGo_sleep_val (o : Nat → AttemptOutcome) (d : Nat) :
    ∀ (fuel a n w : Nat),
      ((retryLoopGo o d a fuel).2).get? n = some w → w = d * 3 ^ (a + n) := by
  intro fuel
  induction fuel with
  | zero => intro a n w hw; simp [retryLoopGo] at hw
  | succ f ih =>
    intro a n w hw
    by_cases hs : attemptSucceeds (o a) = true
    · rw [retryLoopGo_success_step o d a f hs] at hw
      simp at hw
    · rcases Nat.eq_zero_or_pos f with hf | hf
      · subst hf
        rw [retryLoopGo_last_fail o d a (Bool.not_eq_true _ ▸ hs)] at hw
        simp at hw
      · rw [retryLoopGo_fail_step o d a f (Bool.not_eq_true _ ▸ hs) (Nat.pos_iff_ne_zero.mp hf)] at hw
        cases n with
        | zero =>
          simp at hw
          simpa using hw.symm
        | succ m =>
          have hrec := ih (a + 1) m w (by simpa using hw)
          have hexp : a + 1 + m = a + (m + 1) := by omega
          rw [hrec, hexp]

/-! ## Claim theorems -/

set_option maxRecDepth 8000 in
/-- C2, counterexample. The ledger file holds the lines `a.png\n`,
` a.png \n` and `$$done$$\n` and the item `a.png` is present. The code
rewrite drops BOTH of the first two lines, although the line ` a.png \n` is
not exactly equal to the item (its content is ` a.png `): the spec-side
removal, which excludes only exactly-equal lines, keeps it. Hence not every
line other than the item retains its place. -/
theorem removeItem_not_exact_match :
    update_tracking_file ["a.png\n", " a.png \n", "$$done$$\n"] "a.png" = ["$$done$$\n"] ∧
    lineContent " a.png \n" ≠ "a.png" ∧
    specRemoveItem ["a.png\n", " a.png \n", "$$done$$\n"] "a.png"
      = [" a.png \n", "$$done$$\n"] := by
  decide

/-- C2, amended. `removeItem` removes exactly the lines whose
whitespace-stripped content equals the item: the result is an in-order
sublist of the original lines (so every remaining line, sentinel and comment
lines included, retains its original relative order), a line survives iff its
stripped content differs from the item, and — since loaded items are
themselves stripped — no line equal to the item remains. Lines that differ
from the item only by surrounding whitespace are removed as well. -/
theorem removeItem_strip_semantics (L : List String) (i : String) :
    List.Sublist (update_tracking_file L i) L ∧
    (∀ l, l ∈ update_tracking_file L i ↔ (l ∈ L ∧ pystrip l ≠ i)) ∧
    (pystrip i = i → ∀ l ∈ update_tracking_file L i, l ≠ i) := by
  refine ⟨List.filter_sublist L, fun l => ?_, fun hi l hl hli => ?_⟩
  · simp [update_tracking_file, List.mem_filter]
  · subst hli
    have := (List.mem_filter.mp hl).2
    simp [hi] at this

set_option maxRecDepth 8000 in
/-- C3, code evaluated at the failing input. The transcription stage load
returns the comment line `# List image paths here, one per line` — the very
header the script itself writes into a fresh pending file — as a work item,
while the preprocess stage load filters it out. -/
theorem flashLoad_treats_comment_as_item :
    flashLoad ["# List image paths here, one per line\n", "a.png\n"]
      = ["# List image paths here, one per line", "a.png"] ∧
    preprocessLoad ["# List image paths here, one per line\n", "a.png\n"] = ["a.png"] := by
  decide

/-- C4. Prompt composition is pure and deterministic and satisfies the four
specified equations: no context returns the base prompt unchanged; a global
context alone, an individual context alone, and both together produce the
`Given the context: ...` prefix with the global text first and the
individual text appended after a line break. -/
theorem compose_prompt_pure_table (base g x bn : String) (hg : g ≠ "") (hx : x ≠ "") :
    compose_prompt "" [] bn base = base ∧
    compose_prompt g [] bn base = "Given the context: " ++ g ++ "\n" ++ base ∧
    compose_prompt "" [(bn, x)] bn base = "Given the context: " ++ x ++ "\n" ++ base ∧
    compose_prompt g [(bn, x)] bn base
      = "Given the context: " ++ g ++ "\n" ++ x ++ "\n" ++ base := by
  have hg2 : (g != "") = true := by simp [hg]
  have hx2 : (x != "") = true := by simp [hx]
  refine ⟨rfl, ?_, ?_, ?_⟩
  · simp [compose_prompt, hg2]
  · simp [compose_prompt, hx2, List.lookup]
  · simp [compose_prompt, hg2, List.lookup, String.append_assoc]
    intro hc
    exact absurd hc (append_ne_empty_left g ("\n" ++ x) hg)

/-- C4, witness: the four equations at the concrete spec instance. -/
theorem compose_prompt_pure_table_witness :
    compose_prompt "" [] "img1" "base" = "base" ∧
    compose_prompt "G" [] "img1" "base" = "Given the context: G\nbase" ∧
    compose_prompt "" [("img1", "X")] "img1" "base" = "Given the context: X\nbase" ∧
    compose_prompt "G" [("img1", "X")] "img1" "base" = "Given the context: G\nX\nbase" := by
  have h := compose_prompt_pure_table "base" "G" "X" "img1" (by decide) (by decide)
  exact ⟨h.1, h.2.1.trans (by decide), h.2.2.1.trans (by decide), h.2.2.2.trans (by decide)⟩

/-- C5. With `baseDelay = 5` and `maxAttempts = 3`, the retry loop sleeps
`5 * 3 ^ n` seconds before attempt `n + 2` (5 seconds between attempts 1
and 2, 15 seconds between attempts 2 and 3), performs at most two sleeps
(never one after the final attempt), and when every attempt fails the sleep
schedule is exactly `[5, 15]`. -/
theorem backoff_schedule_correct (outcome : Nat → AttemptOutcome) :
    (∀ n w, ((retryLoop outcome 3 5).2).get? n = some w → w = 5 * 3 ^ n) ∧
    ((retryLoop outcome 3 5).2).length ≤ 2 ∧
    (retryLoop (fun _ => AttemptOutcome.except) 3 5).2 = [5, 15] := by
  refine ⟨fun n w hw => ?_, ?_, by decide⟩
  · have := retryLoopGo_sleep_val outcome 5 3 0 n w hw
    simpa using this
  · have := retryLoopGo_sleeps_length outcome 5 3 0
    simpa using this

/-- C1, counterexample. A preprocess ledger holds the single item line
`a.png\n` and every preprocessing attempt fails (no artifact is produced),
yet the drain removes the line: the preprocess stage runner does not leave a
failed item in the ledger. -/
theorem preprocess_removes_failed_item :
    process_images_drain (fun _ => false) ["a.png\n"] = [] ∧
    process_images_drain (fun _ => false) ["a.png\n"] ≠ ["a.png\n"] := by
  decide

/-- C1, amended. The transcription stage runner leaves a failed item
untouched in the ledger and removes an item only when its retry loop
succeeded (which requires a non-empty output artifact) or its source file
was missing; the preprocess stage runner, by contrast, removes each
attempted item from the tracking file regardless of whether preprocessing
succeeded — its drain does not depend on the per-item results at all. -/
theorem failure_keeps_item_in_ledger (env : ItemEnv) (item : String) (ledger : List String) :
    (env.fileExists = true → (retryLoop env.outcome MAX_RETRIES RETRY_DELAY).1 = false →
      (processItem env item ledger).1 = ledger) ∧
    ((processItem env item ledger).1 ≠ ledger →
      (retryLoop env.outcome MAX_RETRIES RETRY_DELAY).1 = true ∨ env.fileExists = false) ∧
    (∀ (results : String → Bool) (L : List String),
      process_images_drain results L = process_images_drain (fun _ => true) L) := by
  refine ⟨fun hex hfail => ?_, fun hne => ?_, fun results L => rfl⟩
  · simp [processItem, hex, hfail]
  · by_cases hex : env.fileExists = true
    · by_cases hr : (retryLoop env.outcome MAX_RETRIES RETRY_DELAY).1 = true
      · exact Or.inl hr
      · exact absurd (by simp [processItem, hex, Bool.not_eq_true _ ▸ hr]) hne
    · exact Or.inr (Bool.not_eq_true _ ▸ hex)

/-- C6. An attempt is classified successful exactly when the artifact exists
with size strictly greater than zero; an error-free call that leaves an
empty artifact (`wrote true 0`) is not a success, and with such a first
attempt the loop sleeps 5 seconds and proceeds to a second attempt; whenever
the whole loop fails, the transcription runner leaves the ledger unchanged
(no removal). -/
theorem empty_artifact_is_retryable (outcome : Nat → AttemptOutcome)
    (h0 : outcome 0 = AttemptOutcome.wrote true 0) :
    attemptSucceeds (outcome 0) = false ∧
    ((retryLoop outcome 3 5).2).get? 0 = some 5 ∧
    (∀ (present : Bool) (size : Nat),
      attemptSucceeds (AttemptOutcome.wrote present size) = true ↔
        (present = true ∧ 0 < size)) ∧
    (∀ (item : String) (ledger : List String),
      (retryLoop outcome 3 5).1 = false →
      (processItem ⟨true, outcome⟩ item ledger).1 = ledger) := by
  have hfail : attemptSucceeds (outcome 0) = false := by rw [h0]; rfl
  refine ⟨hfail, ?_, ?_, ?_⟩
  · show ((retryLoopGo outcome 5 0 (2 + 1)).2).get? 0 = some 5
    rw [retryLoopGo_fail_step outcome 5 0 2 hfail (by omega)]
    simp
  · intro present size
    cases present <;> simp [attemptSucceeds]
  · intro item ledger hfl
    simp [processItem, MAX_RETRIES, RETRY_DELAY, hfl]

/-- C6, witness: the classification and the retry at the concrete
empty-artifact outcome. -/
theorem empty_artifact_is_retryable_witness :
    attemptSucceeds ((fun _ => AttemptOutcome.wrote true 0) 0) = false ∧
    ((retryLoop (fun _ => AttemptOutcome.wrote true 0) 3 5).2).get? 0 = some 5 := by
  have h := empty_artifact_is_retryable (fun _ => AttemptOutcome.wrote true 0) rfl
  exact ⟨h.1, h.2.1⟩

/-- Draining a list of all-missing items is a pure sequence of ledger
filters: no retry-loop invocation is ever made and the invocation counter is
unchanged. -/
theorem flashStage_fold_missing (envOf : String → ItemEnv) :
    ∀ (items : List String) (acc : List String) (n : Nat),
      (∀ i ∈ items, (envOf i).fileExists = false) →
      items.foldl (fun acc item =>
          let r := processItem (envOf item) item acc.1
          (r.1, acc.2 + r.2.1)) (acc, n)
        = (acc.filter (fun l => items.all (fun i => pystrip l != i)), n) := by
  intro items
  induction items with
  | nil => intro acc n _; simp
  | cons i is ih =>
    intro acc n h
    have hi : (envOf i).fileExists = false := h i (by simp)
    have hstep : processItem (envOf i) i acc = (update_tracking_file acc i, 0, []) := by
      simp [processItem, hi]
    simp only [List.foldl_cons, hstep]
    rw [show n + (0, ([] : List Nat)).1 = n from rfl]
    rw [ih (update_tracking_file acc i) n (fun j hj => h j (by simp [hj]))]
    have hfilter : (update_tracking_file acc i).filter
          (fun l => is.all (fun j => pystrip l != j))
        = acc.filter (fun l => (i :: is).all (fun j => pystrip l != j)) := by
      rw [update_tracking_file, List.filter_filter]
      exact List.filter_congr (fun a _ => by simp [List.all_cons, Bool.and_comm])
    rw [hfilter]

/-- C7. When every loaded item references a missing source file, a full
transcription-stage drain performs zero retry-loop invocations (hence no
remote call and no backoff sleep) and removes every non-blank line from the
pending file; each individual missing item is removed immediately, with zero
invocations and no sleeps. -/
theorem missing_items_drain (envOf : String → ItemEnv) (lines : List String)
    (h : ∀ i ∈ flashLoad lines, (envOf i).fileExists = false) :
    (flashStage envOf lines).2 = 0 ∧
    (flashStage envOf lines).1 = lines.filter (fun l => pystrip l == "") ∧
    (∀ (env : ItemEnv) (item : String) (led : List String), env.fileExists = false →
      processItem env item led = (update_tracking_file led item, 0, [])) := by
  have hrev : ∀ i ∈ (flashLoad lines).reverse, (envOf i).fileExists = false := by
    intro i hi
    exact h i (List.mem_reverse.mp hi)
  have hfold := flashStage_fold_missing envOf ((flashLoad lines).reverse) lines 0 hrev
  have hstage : flashStage envOf lines
      = (lines.filter (fun l => ((flashLoad lines).reverse).all (fun i => pystrip l != i)), 0) :=
    hfold
  refine ⟨by rw [hstage], ?_, ?_⟩
  · rw [hstage]
    show lines.filter _ = lines.filter _
    apply List.filter_congr
    intro l hl
    by_cases hb : pystrip l = ""
    · have hall2 : ∀ x ∈ flashLoad lines, ¬ ("" = x) := by
        intro x hx
        obtain ⟨l2, hl2, hpl2⟩ := List.mem_map.mp hx
        have h2 : pystrip l2 ≠ "" := by simpa using (List.mem_filter.mp hl2).2
        rw [hpl2] at h2
        exact fun he => h2 he.symm
      simp [hb, List.all_eq_true]
      exact hall2
    · have hmem : pystrip l ∈ (flashLoad lines).reverse := by
        rw [List.mem_reverse]
        exact List.mem_map.mpr ⟨l, List.mem_filter.mpr ⟨hl, by simpa using hb⟩, rfl⟩
      have hall : ((flashLoad lines).reverse).all (fun i => pystrip l != i) = false := by
        rcases hx : ((flashLoad lines).reverse).all (fun i => pystrip l != i) with _ | _
        · rfl
        · have := List.all_eq_true.mp hx (pystrip l) hmem
          simp at this
      simp [hall, hb]
  · intro env item led he
    simp [processItem, he]

/-- C7, witness: the spec scenario — a pending file holding only
`missing.png`, whose source file does not exist, drains to the empty ledger
with zero retry-loop invocations. -/
theorem missing_items_drain_witness :
    flashStage (fun _ => ⟨false, fun _ => AttemptOutcome.except⟩) ["missing.png\n"]
      = ([], 0) := by
  have h := missing_items_drain (fun _ => ⟨false, fun _ => AttemptOutcome.except⟩)
    ["missing.png\n"] (by decide)
  have h1 : (flashStage (fun _ => ⟨false, fun _ => AttemptOutcome.except⟩)
      ["missing.png\n"]).1 = [] := h.2.1.trans (by decide)
  have h2 := h.1
  exact Prod.ext h1 h2

set_option maxRecDepth 16000 in
/-- C8, counterexample. The context directory holds the individual context
file `img1_context.txt` with content `X`. An image whose basename `Img1`
differs from the basename prefix `img1` only in letter case does NOT receive
that individual context: its composed prompt is the bare base prompt, while
the exact-case basename `img1` does receive it. The mapping key retains the
original case of the filename and is looked up case-sensitively. -/
theorem context_case_mismatch :
    context_mapping_of ["img1_context.txt"] (fun _ => "X") = [("img1", "X")] ∧
    pylower "Img1" = pylower "img1" ∧
    compose_prompt "" (context_mapping_of ["img1_context.txt"] (fun _ => "X"))
      "Img1" base_prompt = base_prompt ∧
    compose_prompt "" (context_mapping_of ["img1_context.txt"] (fun _ => "X"))
      "img1" base_prompt = "Given the context: X\n" ++ base_prompt := by
  decide

/-- C8, amended. Only the `_context.txt` suffix and the exclusion of the
global context file are matched case-insensitively when the context
directory is scanned; the resulting basename key is then matched
case-sensitively (an exact dictionary lookup) against the image basename, so
only an image whose basename equals the stored key exactly receives the
individual context, and a lookup miss leaves the prompt without it. -/
theorem context_matching_case_sensitive (listing : List String) (content : String → String)
    (f : String) (m : List (String × String)) (bn base x : String) :
    (f ∈ listing →
      (pyEndsWith (pylower f) "_context.txt" && pylower f != "all_document_context.txt") = true →
      f ∈ individual_context_files listing) ∧
    (m.lookup bn = none → compose_prompt "" m bn base = base) ∧
    (m.lookup bn = some x → x ≠ "" →
      compose_prompt "" m bn base = "Given the context: " ++ x ++ "\n" ++ base) := by
  have _ := content
  refine ⟨fun hf hc => List.mem_filter.mpr ⟨hf, hc⟩, fun hn => ?_, fun hsx hx => ?_⟩
  · simp [compose_prompt, hn]
  · have hx2 : (x != "") = true := by simp [hx]
    simp [compose_prompt, hsx, hx2]

/-- C8, amended, witness: a lookup miss (case-differing basename) yields the
bare base prompt and an exact-case hit yields the prefixed prompt. -/
theorem context_matching_case_sensitive_witness :
    compose_prompt "" [("img1", "X")] "Img1" "base" = "base" ∧
    compose_prompt "" [("img1", "X")] "img1" "base" = "Given the context: X\nbase" := by
  have h1 := context_matching_case_sensitive ["img1_context.txt"] (fun _ => "X")
    "img1_context.txt" [("img1", "X")] "Img1" "base" "X"
  have h2 := context_matching_case_sensitive ["img1_context.txt"] (fun _ => "X")
    "img1_context.txt" [("img1", "X")] "img1" "base" "X"
  exact ⟨h1.2.1 (by decide), (h2.2.2 (by decide) (by decide)).trans (by decide)⟩

/-- C9, counterexample. The Gemini pending ledger exists with the single
line `a.jpeg\n`, whose first meaningful line is not the sentinel, and the
`--new` flag is not set: the orchestrator nevertheless skips regenerating
it. Moreover, when the pending ledger is written, no sentinel line is
written into it. -/
theorem pending_regeneration_ignores_sentinel :
    shouldWritePending false true = false ∧
    firstMeaningful ["a.jpeg\n"] = some "a.jpeg" ∧
    firstMeaningful ["a.jpeg\n"] ≠ some "$$done$$" ∧
    "$$done$$\n" ∉ pendingContent ["/out/a.jpeg"] := by
  decide

/-- C9, amended. For the preprocess tracking ledger the claim holds:
repopulation is skipped iff the file exists and its first meaningful line is
the sentinel, and repopulation overwrites the file with the discovered items
followed by the sentinel as last line. The transcription pending ledger,
however, is regenerated iff `--new` is set or the file does not exist
(its content is never consulted), and it is written without any sentinel
line — its entries, the gathered `.jpeg` outputs, never include one. -/
theorem repopulation_decisions (ex nf pe : Bool) (lines items processed : List String)
    (hj : ∀ p ∈ processed, pyEndsWith (pylower p) ".jpeg" = true) :
    (shouldRepopulate ex lines = false ↔
      (ex = true ∧ firstMeaningful lines = some "$$done$$")) ∧
    (repopulateContent items).getLast? = some "$$done$$\n" ∧
    (shouldWritePending nf pe = false ↔ (nf = false ∧ pe = true)) ∧
    "$$done$$\n" ∉ pendingContent processed ∧
    (∀ (listing : List String) (p : String), p ∈ gatherProcessed listing →
      pyEndsWith (pylower p) ".jpeg" = true) := by
  refine ⟨?_, ?_, ?_, ?_, ?_⟩
  · cases ex with
    | false => simp [shouldRepopulate]
    | true =>
      rcases hfm : firstMeaningful lines with _ | s
      · simp [shouldRepopulate, hfm]
      · simp [shouldRepopulate, hfm]
  · simp [repopulateContent]
  · cases nf <;> cases pe <;> simp [shouldWritePending]
  · intro hmem
    obtain ⟨p, hp, heq⟩ := List.mem_map.mp hmem
    have hpd : p = "$$done$$" := by
      apply append_newline_inj
      rw [heq]
      decide
    have := hj p hp
    rw [hpd] at this
    exact absurd this (by decide)
  · intro listing p hp
    exact (List.mem_filter.mp hp).2

/-- C9, amended, witness: at concrete inputs, a sentinel-headed tracking
file suppresses repopulation, repopulated content ends with the sentinel,
and written pending content contains none. -/
theorem repopulation_decisions_witness :
    shouldRepopulate true ["$$done$$\n"] = false ∧
    (repopulateContent ["/in/a.png"]).getLast? = some "$$done$$\n" ∧
    shouldWritePending false true = false ∧
    "$$done$$\n" ∉ pendingContent ["/out/a.jpeg"] := by
  have h := repopulation_decisions true false true ["$$done$$\n"] ["/in/a.png"]
    ["/out/a.jpeg"] (by decide)
  exact ⟨h.1.mpr ⟨rfl, by decide⟩, h.2.1, h.2.2.1.mpr ⟨rfl, rfl⟩, h.2.2.2.1⟩

/-- C10. The preprocess stage drain only ever removes ledger lines whose
stripped content carries one of the valid image extensions; a line whose
stripped content is the sentinel `$$done$$` (which has no extension) is
never removed; and on a ledger whose lines are all sentinel lines or
valid-extension item lines with a sentinel present — the shape produced by
orchestrator repopulation — a full drain leaves the sentinel present as the
first meaningful line. -/
theorem preprocess_sentinel_invariant (results : String → Bool) (ledger : List String)
    (h : ∀ l ∈ ledger, pystrip l = "$$done$$" ∨ hasValidExt (pystrip l) = true)
    (hs : ∃ l ∈ ledger, pystrip l = "$$done$$") :
    (∀ (L : List String) (l : String), l ∈ L → l ∉ process_images_drain results L →
      hasValidExt (pystrip l) = true) ∧
    (∀ (L : List String) (l : String), l ∈ L → pystrip l = "$$done$$" →
      l ∈ process_images_drain results L) ∧
    firstMeaningful (process_images_drain results ledger) = some "$$done$$" := by
  have hval : hasValidExt "$$done$$" = false := by decide
  have p2 : ∀ (L : List String) (l : String), l ∈ L → pystrip l = "$$done$$" →
      l ∈ process_images_drain results L := by
    intro L l hl hd
    rw [process_images_drain_eq_filter]
    refine List.mem_filter.mpr ⟨hl, ?_⟩
    rw [List.all_eq_true]
    intro p hp
    have hpv : hasValidExt p = true := (List.mem_filter.mp hp).2
    rw [hd]
    simp only [bne_iff_ne, ne_eq]
    intro he
    rw [← he] at hpv
    exact absurd hpv (by simp [hval])
  refine ⟨?_, p2, ?_⟩
  · intro L l hl hnot
    rw [process_images_drain_eq_filter] at hnot
    by_contra hne
    apply hnot
    refine List.mem_filter.mpr ⟨hl, ?_⟩
    rw [List.all_eq_true]
    intro p hp
    have hpv : hasValidExt p = true := (List.mem_filter.mp hp).2
    simp only [bne_iff_ne, ne_eq]
    intro he
    rw [he] at hne
    exact hne hpv
  · obtain ⟨l0, hl0, hl0s⟩ := hs
    have hl0D : l0 ∈ process_images_drain results ledger := p2 ledger l0 hl0 hl0s
    have hmem : "$$done$$" ∈ (process_images_drain results ledger).map pystrip :=
      List.mem_map.mpr ⟨l0, hl0D, hl0s⟩
    have hmf : ("$$done$$" != "" && !startsWithHash "$$done$$") = true := by decide
    have key : ∀ s ∈ (process_images_drain results ledger).map pystrip,
        (s != "" && !startsWithHash s) = true → s = "$$done$$" := by
      intro s hsmem hsm
      obtain ⟨l, hlD, hls⟩ := List.mem_map.mp hsmem
      have hlL : l ∈ ledger := by
        rw [process_images_drain_eq_filter] at hlD
        exact (List.mem_filter.mp hlD).1
      rcases h l hlL with hdone | hvalid
      · rw [← hls]; exact hdone
      · exfalso
        have hsm2 := hsm
        rw [Bool.and_eq_true] at hsm2
        have hne : pystrip l ≠ "" := by
          rw [hls]; simpa using hsm2.1
        have hnh : startsWithHash (pystrip l) = false := by
          rw [hls]; simpa using hsm2.2
        have hnh2 : startsWithHash l = false := by
          rcases hx : startsWithHash l with _ | _
          · rfl
          · rw [startsWithHash_pystrip l hx] at hnh
            exact absurd hnh (by simp)
        have hitem : pystrip l ∈ (preprocessLoad ledger).filter hasValidExt := by
          refine List.mem_filter.mpr ⟨?_, hvalid⟩
          exact List.mem_map.mpr
            ⟨l, List.mem_filter.mpr ⟨hlL, by simp [hne, hnh2]⟩, rfl⟩
        rw [process_images_drain_eq_filter] at hlD
        have hcond := (List.mem_filter.mp hlD).2
        have := List.all_eq_true.mp hcond (pystrip l) hitem
        simp at this
    have hsome : (((process_images_drain results ledger).map pystrip).find?
        (fun s => s != "" && !startsWithHash s)).isSome :=
      List.find?_isSome.mpr ⟨"$$done$$", hmem, hmf⟩
    obtain ⟨x, hx⟩ := Option.isSome_iff_exists.mp hsome
    have hx1 := List.find?_some hx
    have hx2 := List.mem_of_find?_eq_some hx
    show ((process_images_drain results ledger).map pystrip).find?
        (fun s => s != "" && !startsWithHash s) = some "$$done$$"
    rw [hx]
    exact congrArg some (key x hx2 hx1)

/-- C10, witness: a repopulated-shape ledger with one valid item and the
sentinel drains to a ledger whose first meaningful line is the sentinel. -/
theorem preprocess_sentinel_invariant_witness :
    firstMeaningful (process_images_drain (fun _ => true) ["/in/a.png\n", "$$done$$\n"])
      = some "$$done$$" :=
  (preprocess_sentinel_invariant (fun _ => true) ["/in/a.png\n", "$$done$$\n"]
    (by decide) (by decide)).2.2

end TranscribeAI
